import Mathlib

set_option maxRecDepth 40000

/-!
Verification development for the SECOP blockchain backend (Go).

The embedding below translates the Go sources into Lean:
  - the Block / Chain integrity layer (block.go part of the source pack),
  - the Blockchain operations (blockchain.go with workflow integration),
  - the contract workflow engine (internal/blockchain/workflow.go),
  - the P2P synchronization layer (p2p.go part of the source pack).

Modelling conventions, stated once here:
  - Go time.Time values are modelled by their Unix-seconds integer; the Go
    zero time (time.Time.IsZero) is modelled by the integer 0, and every
    call of time.Now() is threaded through as an explicit integer argument.
  - SHA-256 is modelled by an injective digest function over the canonical
    encoding string (the digest is the tagged encoding itself).  Every
    claim under verification depends only on determinism and
    collision-freeness of the digest, never on its bit pattern.
  - Go maps with string keys are modelled by association lists; Go map
    assignment is an insert-or-replace operation.  json.Marshal sorting of
    mapping keys is modelled at the levels the hashing path exercises: the
    six fixed record keys are laid out in their sorted order and the block
    data mapping is key-sorted before serialization.
  - uuid.New() results are threaded through as explicit string arguments.
  - Functions that can fail return a pair of the new state and an optional
    error string, mirroring the pervasive Go (state-mutation, error)
    behaviour: mutations performed before an error return persist.
-/

namespace SECOP

/-- JSON-like value stored in a block data mapping (Go map[string]interface{}
values). Covers the value shapes the Go sources put into block data:
strings, integers (also modelling the float64 amounts, whose arithmetic no
claim touches), booleans, time.Time values, and nested mappings. -/
inductive Val where
  | vstr  (s : String)
  | vint  (n : Int)
  | vbool (b : Bool)
  | vtime (t : Int)
  | vmap  (entries : List (String × Val))

/-- Insertion-ordered string-keyed mapping, modelling map[string]interface{}. -/
abbrev DataMap := List (String × Val)

/-- Boolean lexicographic order on character lists (byte order, as Go
sorts the ASCII mapping keys that occur in block data). -/
def charListLeB : List Char → List Char → Bool
  | [], _ => true
  | _ :: _, [] => false
  | a :: as, b :: bs =>
    if a.toNat < b.toNat then true
    else if b.toNat < a.toNat then false
    else charListLeB as bs

/-- Boolean lexicographic order on strings. -/
def strLeB (a b : String) : Bool := charListLeB a.data b.data

/-- Key-ordered insertion, used to model json.Marshal sorting mapping keys. -/
def insertByKey (kv : String × Val) : List (String × Val) → List (String × Val)
  | [] => [kv]
  | x :: xs => if strLeB kv.1 x.1 then kv :: x :: xs else x :: insertByKey kv xs

/-- Sort a data mapping by key (insertion sort), modelling the deterministic
key order of Go json.Marshal output for map[string]interface{}. -/
def sortByKey : List (String × Val) → List (String × Val)
  | [] => []
  | kv :: rest => insertByKey kv (sortByKey rest)

mutual
/-- Serialize one value, following the JSON rendering json.Marshal produces
(time values rendered with a fixed deterministic tag). -/
def encVal : Val → String
  | .vstr s => "\x22" ++ s ++ "\x22"
  | .vint n => toString n
  | .vbool b => cond b "true" "false"
  | .vtime t => "\x22time-" ++ toString t ++ "\x22"
  | .vmap m => "\x7b" ++ encEntries m ++ "\x7d"

/-- Serialize a list of key-value entries in the given order. -/
def encEntries : List (String × Val) → String
  | [] => ""
  | [(k, v)] => "\x22" ++ k ++ "\x22:" ++ encVal v
  | (k, v) :: rest => "\x22" ++ k ++ "\x22:" ++ encVal v ++ "," ++ encEntries rest
end

/-- Canonical JSON encoding of a data mapping: keys sorted, then serialized.
Models json.Marshal of a Go map[string]interface{}. -/
def encodeData (d : DataMap) : String :=
  "\x7b" ++ encEntries (sortByKey d) ++ "\x7d"

/-- Model of the SHA-256 hex digest: an injective function of the input
string (collision-freeness of SHA-256 is idealized as injectivity; no claim
depends on the concrete bit pattern of the digest). -/
def sha256hex (s : String) : String := "sha256:" ++ s

/-- Block of the SECOP chain (block.go): index, timestamp, data mapping,
previous hash, own hash, nonce and event type tag. -/
structure Block where
  index        : Int
  timestamp    : Int
  data         : DataMap
  previousHash : String
  hash         : String
  nonce        : Int
  type         : String
  deriving Inhabited

/-- Canonical encoding hashed by Block.calculateHash: the record mapping
with keys index, timestamp (Unix seconds), data, previous_hash, nonce and
type, laid out in the sorted key order json.Marshal produces, with the data
mapping itself canonically encoded. -/
def encodeRecord (b : Block) : String :=
  "\x7b\x22data\x22:" ++ encodeData b.data
    ++ ",\x22index\x22:" ++ toString b.index
    ++ ",\x22nonce\x22:" ++ toString b.nonce
    ++ ",\x22previous_hash\x22:\x22" ++ b.previousHash
    ++ "\x22,\x22timestamp\x22:" ++ toString b.timestamp
    ++ ",\x22type\x22:\x22" ++ b.type ++ "\x22\x7d"

/-- Block.calculateHash: SHA-256 over the canonical record encoding. -/
def Block.calculateHash (b : Block) : String :=
  sha256hex (encodeRecord b)

/-- Block.IsValid: the stored hash recomputes correctly. -/
def Block.IsValid (b : Block) : Bool :=
  b.hash == b.calculateHash

/-- NewBlock (block.go): fresh block with index 0, the given data and
previous hash, nonce 0, empty type, timestamped now, hash computed. -/
def NewBlock (data : DataMap) (previousHash : String) (now : Int) : Block :=
  let block : Block :=
    { index := 0, timestamp := now, data := data, previousHash := previousHash,
      hash := "", nonce := 0, type := "" }
  { block with hash := block.calculateHash }

/-- Contract status enumeration.  The constants (StatusDraft, ...,
StatusRejected, StatusCompleted) are declared in a models file of this
repository that is not under src/; the constructors are reconstructed from
their uses in workflow.go and from the data model of the spec (section 3). -/
inductive ContractStatus where
  | Draft | TechnicalReview | LegalReview | ContractsReview | AdminReview
  | BudgetReview | AuthorizedForPublication | Rejected | Completed
  deriving DecidableEq, Inhabited

/-- Administrative role enumeration (RoleProjectDeveloper, ...), declared in
the missing models file; reconstructed from workflow.go and spec section 3:
six approval roles in step order plus three external audit roles. -/
inductive AdminRole where
  | ProjectDeveloper | TechnicalCommission | LegalCommission | ContractsChief
  | AdminChief | BudgetAuthority | Comptroller | Prosecutor | Citizen
  deriving DecidableEq, Inhabited

/-- Per-step validation status (ValidationPending / Approved / Rejected),
declared in the missing models file; reconstructed from workflow.go. -/
inductive ValidationStatus where
  | Pending | Approved | Rejected
  deriving DecidableEq, Inhabited

/-- One workflow validation step of a contract (declared in the missing
models file; fields reconstructed from workflow.go and spec section 3). -/
structure ValidationStep where
  stepNumber    : Int
  role          : AdminRole
  status        : ValidationStatus
  required      : Bool
  validatorID   : String
  validatorName : String
  comments      : String
  timestamp     : Int
  deriving Inhabited

/-- One audit trail entry (declared in the missing models file; fields
reconstructed from workflow.go addAuditEntry and spec section 3). -/
structure AuditEntry where
  id          : String
  action      : String
  userID      : String
  userRole    : AdminRole
  timestamp   : Int
  description : String
  deriving Inhabited

/-- A state contract with its workflow state (the workflow fields are
declared in the missing models file; reconstructed from workflow.go usage
and spec section 3). -/
structure Contract where
  id              : String
  entityCode      : String
  entityName      : String
  contractType    : String
  description     : String
  amount          : Int
  status          : ContractStatus
  createdBy       : String
  createdAt       : Int
  updatedAt       : Int
  currentStep     : Int
  validationSteps : List ValidationStep
  auditTrail      : List AuditEntry
  deriving Inhabited

/-- The blockchain state: the chain of blocks and the contract registry
(Go map modelled as an association list). -/
structure Blockchain where
  chain     : List Block
  contracts : List (String × Contract)

/-- Go map read m[k]: first entry with the given key. -/
def mapGet (m : List (String × Contract)) (k : String) : Option Contract :=
  match m with
  | [] => none
  | kv :: rest => if kv.1 = k then some kv.2 else mapGet rest k

/-- Go map assignment m[k] = v: replace an existing binding, else append. -/
def mapInsert (m : List (String × Contract)) (k : String) (v : Contract) :
    List (String × Contract) :=
  match m with
  | [] => [(k, v)]
  | kv :: rest => if kv.1 = k then (k, v) :: rest else kv :: mapInsert rest k v

/-- First string value under the given key of a data mapping, modelling the
Go map read plus string type assertion blockData[k].(string). -/
def dataGetStr (d : DataMap) (k : String) : Option String :=
  match d with
  | [] => none
  | kv :: rest =>
    if kv.1 = k then
      match kv.2 with
      | .vstr s => some s
      | _ => none
    else dataGetStr rest k

/-- getLatestBlock: last block of the chain (the Go code indexes the last
element and is only called on nonempty chains; the default is inert). -/
def Blockchain.getLatestBlock (bc : Blockchain) : Block :=
  bc.chain.getLastD default

/-- NewBlockchain: a chain holding only the genesis block (index 0, the
fixed greeting payload, empty previous hash, computed hash) and an empty
contract registry. -/
def NewBlockchain (now : Int) : Blockchain :=
  let genesisBlock : Block :=
    { index := 0, timestamp := now,
      data := [("message", .vstr "SECOP Blockchain Genesis Block")],
      previousHash := "", hash := "", nonce := 0, type := "" }
  { chain := [{ genesisBlock with hash := genesisBlock.calculateHash }],
    contracts := [] }

/-- IsValidBlock (blockchain.go): hash nonempty, timestamp not the zero
time, and previous hash equal to the current tail hash (when a tail exists). -/
def Blockchain.IsValidBlock (bc : Blockchain) (block : Block) : Bool :=
  if block.hash == "" then false
  else if block.timestamp == 0 then false
  else if bc.chain.length > 0 && block.previousHash != bc.getLatestBlock.hash then false
  else true

/-- HasBlock: linear scan for a block with the given hash. -/
def Blockchain.HasBlock (bc : Blockchain) (hash : String) : Bool :=
  bc.chain.any (fun block => block.hash == hash)

/-- The block AddBlock builds before appending: a new block from the data
mapping and the tail hash, index overwritten with the chain length, type
taken from the data mapping when present, hash recomputed last. -/
def builtBlock (bc : Blockchain) (blockData : DataMap) (now : Int) : Block :=
  let block := NewBlock blockData bc.getLatestBlock.hash now
  let block := { block with index := (bc.chain.length : Int) }
  let block :=
    match dataGetStr blockData "type" with
    | some blockType => { block with type := blockType }
    | none => block
  { block with hash := block.calculateHash }

/-- AddBlock (blockchain.go): build the block, validate it, append. -/
def Blockchain.AddBlock (bc : Blockchain) (blockData : DataMap) (now : Int) :
    Blockchain × Option String :=
  let block := builtBlock bc blockData now
  if bc.IsValidBlock block then
    ({ bc with chain := bc.chain ++ [block] }, none)
  else
    (bc, some "bloque inválido")

/-- Loop body of IsChainValid: starting from the second block, each block
must recompute its own hash and link to its predecessor. -/
def chainLoop : List Block → Bool
  | prev :: cur :: rest =>
    (cur.IsValid && cur.previousHash == prev.hash) && chainLoop (cur :: rest)
  | _ => true

/-- IsChainValid (blockchain.go): the loop above over the local chain;
note the loop starts at index 1, so the genesis block itself is never
re-hashed. -/
def Blockchain.IsChainValid (bc : Blockchain) : Bool :=
  chainLoop bc.chain

/-- Loop body of IsValidChain over the remaining blocks, given the previous
block: each block must have a nonempty hash and link to its predecessor by
stored hash (no hash recomputation). -/
def validChainLoop : Block → List Block → Bool
  | _, [] => true
  | prev, block :: rest =>
    (block.hash != "") && (block.previousHash == prev.hash) && validChainLoop block rest

/-- IsValidChain (blockchain.go): a nonempty chain whose blocks all carry a
nonempty hash and whose adjacent pairs link by stored hash.  The receiver
is unused in the Go method, so the function takes only the chain. -/
def IsValidChain (chain : List Block) : Bool :=
  match chain with
  | [] => false
  | block :: rest => (block.hash != "") && validChainLoop block rest

/-- One row of the canonical workflow step template (workflow.go). -/
structure WorkflowStep where
  stepNumber : Int
  role       : AdminRole
  name       : String
  required   : Bool
  deriving Inhabited

/-- GetWorkflowSteps: the fixed six-step template, one role per step. -/
def GetWorkflowSteps : List WorkflowStep :=
  [ { stepNumber := 1, role := .ProjectDeveloper,    name := "Creación del Proyecto",            required := true },
    { stepNumber := 2, role := .TechnicalCommission, name := "Revisión Técnica",                 required := true },
    { stepNumber := 3, role := .LegalCommission,     name := "Revisión Jurídica",                required := true },
    { stepNumber := 4, role := .ContractsChief,      name := "Aprobación Jefe de Contratos",     required := true },
    { stepNumber := 5, role := .AdminChief,          name := "Aprobación Jefe Administrativo",   required := true },
    { stepNumber := 6, role := .BudgetAuthority,     name := "Autorización Ordenador del Gasto", required := true } ]

/-- addAuditEntry (workflow.go): append one audit entry to the contract
trail; the generated uuid is threaded in as entryID. -/
def addAuditEntry (c : Contract) (entryID action userID : String)
    (role : AdminRole) (description : String) (now : Int) : Contract :=
  { c with auditTrail := c.auditTrail ++
      [{ id := entryID, action := action, userID := userID, userRole := role,
         timestamp := now, description := description }] }

/-- The validation step list InitializeContractWorkflow stamps from the
template: every step pending, unstamped, with the template role and step
number. -/
def freshValidationSteps : List ValidationStep :=
  GetWorkflowSteps.map (fun step =>
    { stepNumber := step.stepNumber, role := step.role, status := ValidationStatus.Pending,
      required := step.required, validatorID := "", validatorName := "",
      comments := "", timestamp := 0 })

/-- InitializeContractWorkflow: stamp the validation steps from the
template (all pending, zero timestamp), set currentStep to 1 and status to
Draft, refresh updatedAt, and log WORKFLOW_INITIALIZED. -/
def InitializeContractWorkflow (c : Contract) (now : Int) (auditID : String) : Contract :=
  let c := { c with validationSteps := freshValidationSteps, currentStep := 1,
                    status := ContractStatus.Draft, updatedAt := now }
  addAuditEntry c auditID "WORKFLOW_INITIALIZED" c.createdBy .ProjectDeveloper
    "Flujo de trabajo inicializado" now

/-- getStatusForStep (workflow.go): fixed mapping from the current step
number to the contract status. -/
def getStatusForStep (stepNumber : Int) : ContractStatus :=
  if stepNumber = 1 then .Draft
  else if stepNumber = 2 then .TechnicalReview
  else if stepNumber = 3 then .LegalReview
  else if stepNumber = 4 then .ContractsReview
  else if stepNumber = 5 then .AdminReview
  else if stepNumber = 6 then .BudgetReview
  else .AuthorizedForPublication

/-- String value of an AdminRole constant (the Go enum is a string type;
the concrete spellings live in the missing models file, so distinct
deterministic spellings are used). -/
def roleString : AdminRole → String
  | .ProjectDeveloper => "PROJECT_DEVELOPER"
  | .TechnicalCommission => "TECHNICAL_COMMISSION"
  | .LegalCommission => "LEGAL_COMMISSION"
  | .ContractsChief => "CONTRACTS_CHIEF"
  | .AdminChief => "ADMIN_CHIEF"
  | .BudgetAuthority => "BUDGET_AUTHORITY"
  | .Comptroller => "COMPTROLLER"
  | .Prosecutor => "PROSECUTOR"
  | .Citizen => "CITIZEN"

/-- Block data recorded by ValidateStep (keys in Go insertion order). -/
def validationBlockData (contractID : String) (stepNumber : Int)
    (validatorID : String) (role : AdminRole) (approved : Bool)
    (comments : String) (now : Int) : DataMap :=
  [ ("type", .vstr "VALIDATION"), ("contract_id", .vstr contractID),
    ("step", .vint stepNumber), ("validator", .vstr validatorID),
    ("role", .vstr (roleString role)), ("approved", .vbool approved),
    ("comments", .vstr comments), ("timestamp", .vtime now) ]

/-- ValidateStep (workflow.go).  Checks in source order: contract exists,
requested step equals the current step, step within bounds, submitted role
equals the role fixed for the step.  Then stamps the step, branches on
approval (advance / complete on approve, reject on refusal), refreshes
updatedAt, writes the contract back (the Go code mutates it through a
pointer shared with the registry) and appends a VALIDATION block.  The two
possible uuid draws are threaded in as auditID and completionAuditID. -/
def Blockchain.ValidateStep (bc : Blockchain) (contractID : String)
    (stepNumber : Int) (validatorID validatorName : String) (role : AdminRole)
    (approved : Bool) (comments : String) (now : Int)
    (auditID completionAuditID : String) : Blockchain × Option String :=
  match mapGet bc.contracts contractID with
  | none => (bc, some "contrato no encontrado")
  | some contract =>
    if stepNumber ≠ contract.currentStep then
      (bc, some ("paso inválido. Paso actual: " ++ toString contract.currentStep
                 ++ ", paso solicitado: " ++ toString stepNumber))
    else if stepNumber > (contract.validationSteps.length : Int) then
      (bc, some "número de paso inválido")
    else
      let idx := (stepNumber - 1).toNat
      let step := contract.validationSteps.getD idx default
      if step.role ≠ role then
        (bc, some ("rol incorrecto para este paso. Esperado: " ++ roleString step.role
                   ++ ", recibido: " ++ roleString role))
      else
        let step := { step with validatorID := validatorID,
                                validatorName := validatorName,
                                timestamp := now, comments := comments }
        let contract :=
          if approved then
            let step := { step with status := ValidationStatus.Approved }
            let c := { contract with validationSteps := contract.validationSteps.set idx step }
            let c := addAuditEntry c auditID "STEP_APPROVED" validatorID role
              ("Paso " ++ toString stepNumber ++ " aprobado: " ++ comments) now
            if stepNumber < (contract.validationSteps.length : Int) then
              { c with currentStep := c.currentStep + 1,
                       status := getStatusForStep (c.currentStep + 1) }
            else
              let c := { c with status := ContractStatus.AuthorizedForPublication }
              addAuditEntry c completionAuditID "WORKFLOW_COMPLETED" validatorID role
                "Flujo de validación completado" now
          else
            let step := { step with status := ValidationStatus.Rejected }
            let c := { contract with validationSteps := contract.validationSteps.set idx step }
            let c := { c with status := ContractStatus.Rejected }
            addAuditEntry c auditID "STEP_REJECTED" validatorID role
              ("Paso " ++ toString stepNumber ++ " rechazado: " ++ comments) now
        let contract := { contract with updatedAt := now }
        let bc := { bc with contracts := mapInsert bc.contracts contractID contract }
        bc.AddBlock (validationBlockData contractID stepNumber validatorID role approved comments now) now

/-- Block data recorded by AddAuditObservation (Go insertion order). -/
def auditObservationBlockData (contractID auditorID : String) (role : AdminRole)
    (observation : String) (now : Int) : DataMap :=
  [ ("type", .vstr "AUDIT_OBSERVATION"), ("contract_id", .vstr contractID),
    ("auditor", .vstr auditorID), ("role", .vstr (roleString role)),
    ("observation", .vstr observation), ("timestamp", .vtime now) ]

/-- AddAuditObservation (workflow.go): only the three external audit roles
may observe; on success one AUDIT_OBSERVATION audit entry is appended to
the contract and one AUDIT_OBSERVATION block to the chain. -/
def Blockchain.AddAuditObservation (bc : Blockchain) (contractID auditorID : String)
    (role : AdminRole) (observation : String) (now : Int) (entryID : String) :
    Blockchain × Option String :=
  match mapGet bc.contracts contractID with
  | none => (bc, some "contrato no encontrado")
  | some contract =>
    if role ≠ .Comptroller ∧ role ≠ .Prosecutor ∧ role ≠ .Citizen then
      (bc, some "rol no autorizado para auditoría")
    else
      let contract := addAuditEntry contract entryID "AUDIT_OBSERVATION" auditorID role observation now
      let bc := { bc with contracts := mapInsert bc.contracts contractID contract }
      bc.AddBlock (auditObservationBlockData contractID auditorID role observation now) now

/-- Workflow status snapshot returned by GetContractWorkflowStatus. -/
structure WorkflowStatus where
  contractID     : String
  currentStep    : Int
  totalSteps     : Nat
  completedSteps : Nat
  status         : ContractStatus
  canAdvance     : Bool
  nextRole       : Option AdminRole
  deriving Inhabited

/-- getNextRole (workflow.go): the role of the current step, or the empty
role (modelled as none) once past the last step. -/
def getNextRole (c : Contract) : Option AdminRole :=
  if c.currentStep ≤ (c.validationSteps.length : Int) then
    some ((c.validationSteps.getD (c.currentStep - 1).toNat default).role)
  else
    none

/-- GetContractWorkflowStatus (workflow.go): derived read of the workflow
state; canAdvance is false only for Rejected or Completed contracts. -/
def Blockchain.GetContractWorkflowStatus (bc : Blockchain) (contractID : String) :
    Option WorkflowStatus :=
  match mapGet bc.contracts contractID with
  | none => none
  | some contract =>
    some { contractID := contractID,
           currentStep := contract.currentStep,
           totalSteps := contract.validationSteps.length,
           completedSteps :=
             contract.validationSteps.countP (fun s => s.status == ValidationStatus.Approved),
           status := contract.status,
           canAdvance := contract.status != ContractStatus.Rejected
                         && contract.status != ContractStatus.Completed,
           nextRole := getNextRole contract }

/-- validateContract (blockchain.go): field validation of a new contract. -/
def validateContractFields (c : Contract) : Option String :=
  if c.entityCode = "" then some "código de entidad requerido"
  else if c.entityName = "" then some "nombre de entidad requerido"
  else if c.description = "" then some "descripción requerida"
  else if c.amount ≤ 0 then some "monto debe ser mayor a cero"
  else if c.createdBy = "" then some "creador requerido"
  else none

/-- Block data recorded by AddContract (Go insertion order). -/
def contractCreationBlockData (c : Contract) : DataMap :=
  [ ("type", .vstr "CONTRACT_CREATION"), ("contract_id", .vstr c.id),
    ("entity_code", .vstr c.entityCode), ("entity_name", .vstr c.entityName),
    ("amount", .vint c.amount), ("created_by", .vstr c.createdBy),
    ("timestamp", .vtime c.createdAt) ]

/-- AddContract (blockchain.go): validate fields, draw an id when empty
(the uuid is threaded in as genID), stamp timestamps and Draft status,
initialize the workflow, register the contract, then append the
CONTRACT_CREATION block. -/
def Blockchain.AddContract (bc : Blockchain) (c : Contract) (genID : String)
    (now : Int) (auditID : String) : Blockchain × Option String :=
  match validateContractFields c with
  | some err => (bc, some err)
  | none =>
    let c := if c.id = "" then { c with id := genID } else c
    let c := { c with createdAt := now, updatedAt := now, status := ContractStatus.Draft }
    let c := InitializeContractWorkflow c now auditID
    let bc := { bc with contracts := mapInsert bc.contracts c.id c }
    bc.AddBlock (contractCreationBlockData c) now

/-- ReceiveBlock (p2p.go): validate the incoming block against the local
chain rules, return success without change when the hash is already
present, otherwise hand a data mapping holding the received block fields to
AddBlock (which wraps them into a freshly built block). -/
def Blockchain.ReceiveBlock (bc : Blockchain) (block : Block) (now : Int) :
    Blockchain × Option String :=
  if !(bc.IsValidBlock block) then
    (bc, some "bloque inválido recibido")
  else if bc.HasBlock block.hash then
    (bc, none)
  else
    let blockData : DataMap :=
      [ ("type", .vstr block.type), ("data", .vmap block.data),
        ("timestamp", .vtime block.timestamp),
        ("previous_hash", .vstr block.previousHash),
        ("nonce", .vint block.nonce) ]
    match bc.AddBlock blockData now with
    | (bc, none) => (bc, none)
    | (bc, some err) => (bc, some ("error agregando bloque: " ++ err))

/-- Rendering of one data value by the Go fmt package default verb, as in
fmt.Sprintf of a data mapping (strings bare, numbers plain). -/
def goFmtVal : Val → String
  | .vstr s => s
  | .vint n => toString n
  | .vbool b => cond b "true" "false"
  | .vtime t => "time-" ++ toString t
  | .vmap _ => "map[...]"

/-- fmt.Sprintf with the default verb applied to a Go map value: the text
map[k1:v1 k2:v2] with keys sorted — in particular the output always starts
with the four characters map[ and is never a JSON document. -/
def goFmtData (d : DataMap) : String :=
  "map[" ++ String.intercalate " "
    ((sortByKey d).map (fun kv => kv.1 ++ ":" ++ goFmtVal kv.2)) ++ "]"

/-- rebuildContractsFromChain (p2p.go): reset the registry, then for every
CONTRACT_CREATION block try to json.Unmarshal the fmt-rendered data mapping
into a Contract, registering it only when decoding succeeds.  The decoder
stands for encoding/json Unmarshal into a Contract value and is passed in
as a function; the facts proved about the rebuild only assume the
documented json behaviour that input not starting with a brace fails. -/
def rebuildContractsFromChain (dec : String → Option Contract) (bc : Blockchain) :
    Blockchain :=
  let contracts := bc.chain.foldl
    (fun acc block =>
      if block.type == "CONTRACT_CREATION" then
        match dec (goFmtData block.data) with
        | some c => mapInsert acc c.id c
        | none => acc
      else acc)
    []
  { bc with contracts := contracts }

/-- Per-peer body of SyncWithPeers (p2p.go): adopt the pulled chain exactly
when it is strictly longer than the local chain and IsValidChain accepts
it, rebuilding the contract registry after adoption. -/
def SyncStep (dec : String → Option Contract) (bc : Blockchain)
    (peerChain : List Block) : Blockchain :=
  if (peerChain.length : Int) > (bc.chain.length : Int) && IsValidChain peerChain then
    rebuildContractsFromChain dec { bc with chain := peerChain }
  else
    bc

/-- SyncWithPeers (p2p.go): fold the per-peer adoption step over the chains
successfully pulled from the active peers (transport failures and inactive
peers are skipped by the Go loop and therefore absent from the input). -/
def SyncWithPeers (dec : String → Option Contract) (bc : Blockchain)
    (peerChains : List (List Block)) : Blockchain :=
  peerChains.foldl (SyncStep dec) bc

/-! Derived state descriptions used by the step lemmas below: the exact
contract value each ValidateStep branch writes back. -/

/-- The stamped step an approval writes back at the validated index. -/
def approvedStamp (s : ValidationStep) (vid vname cm : String) (now : Int) : ValidationStep :=
  { s with validatorID := vid, validatorName := vname, timestamp := now,
           comments := cm, status := ValidationStatus.Approved }

/-- The contract state after a successful non-final approval. -/
def approvedMidContract (c : Contract) (n : Int) (vid vname : String) (role : AdminRole)
    (cm : String) (now : Int) (a1 : String) : Contract :=
  { c with validationSteps :=
             c.validationSteps.set (n - 1).toNat
               (approvedStamp (c.validationSteps.getD (n - 1).toNat default) vid vname cm now),
           auditTrail := c.auditTrail ++
             [{ id := a1, action := "STEP_APPROVED", userID := vid, userRole := role,
                timestamp := now,
                description := "Paso " ++ toString n ++ " aprobado: " ++ cm }],
           currentStep := c.currentStep + 1,
           status := getStatusForStep (c.currentStep + 1),
           updatedAt := now }

/-- The contract state after the successful final (sixth) approval: status
authorized, two audit entries appended, current step unchanged. -/
def approvedFinalContract (c : Contract) (n : Int) (vid vname : String) (role : AdminRole)
    (cm : String) (now : Int) (a1 a2 : String) : Contract :=
  { c with validationSteps :=
             c.validationSteps.set (n - 1).toNat
               (approvedStamp (c.validationSteps.getD (n - 1).toNat default) vid vname cm now),
           auditTrail := (c.auditTrail ++
             [{ id := a1, action := "STEP_APPROVED", userID := vid, userRole := role,
                timestamp := now,
                description := "Paso " ++ toString n ++ " aprobado: " ++ cm }]) ++
             [{ id := a2, action := "WORKFLOW_COMPLETED", userID := vid, userRole := role,
                timestamp := now, description := "Flujo de validación completado" }],
           status := ContractStatus.AuthorizedForPublication,
           updatedAt := now }

/-- The contract state after a rejection of the current step. -/
def rejectedContract (c : Contract) (n : Int) (vid vname : String) (role : AdminRole)
    (cm : String) (now : Int) (a1 : String) : Contract :=
  { c with validationSteps :=
             c.validationSteps.set (n - 1).toNat
               { c.validationSteps.getD (n - 1).toNat default with
                 validatorID := vid, validatorName := vname, timestamp := now,
                 comments := cm, status := ValidationStatus.Rejected },
           auditTrail := c.auditTrail ++
             [{ id := a1, action := "STEP_REJECTED", userID := vid, userRole := role,
                timestamp := now,
                description := "Paso " ++ toString n ++ " rechazado: " ++ cm }],
           status := ContractStatus.Rejected,
           updatedAt := now }

/-- Key order on data mapping entries. -/
def keyR (x y : String × Val) : Prop := strLeB x.1 y.1 = true

/-- Spec-side acceptance predicate for a pulled peer chain, written from
the code's observable behaviour: nonempty, all hashes nonempty, and every
adjacent pair linked by stored hash. -/
def specChainAccept (chain : List Block) : Prop :=
  chain ≠ [] ∧ (∀ b ∈ chain, b.hash ≠ "") ∧
  List.Chain' (fun a b => b.previousHash = a.hash) chain

/-- Spec-side local-chain validity: every adjacent pair has a second
component whose hash recomputes and which links to its predecessor. -/
def specLocalValid (chain : List Block) : Prop :=
  List.Chain' (fun a b => b.IsValid = true ∧ b.previousHash = a.hash) chain

/-- Models encoding/json.Unmarshal into a Contract value at the boundary
the claims exercise: Unmarshal fails (no contract) whenever the input does
not start with an opening brace, because a Contract can only decode from a
JSON object; what happens on well-formed JSON objects is left as an
arbitrary parse function, never constrained by any proof below. -/
def jsonUnmarshalContract (parse : String → Option Contract) (s : String) :
    Option Contract :=
  if s.data.head? = some (Char.ofNat 123) then parse s else none

/-- Status of a registered contract, as an observer on the state. -/
def statusOf (bc : Blockchain) (cid : String) : Option ContractStatus :=
  (mapGet bc.contracts cid).map (fun c => c.status)

/-- Audit trail length of a registered contract. -/
def trailLenOf (bc : Blockchain) (cid : String) : Option Nat :=
  (mapGet bc.contracts cid).map (fun c => c.auditTrail.length)

/-- Current step of a registered contract. -/
def stepOf (bc : Blockchain) (cid : String) : Option Int :=
  (mapGet bc.contracts cid).map (fun c => c.currentStep)

/-! Concrete scenario inputs used by counterexamples and witnesses. -/

/-- A well-formed new contract submission (empty id, valid fields). -/
def demoContract : Contract :=
  { id := "", entityCode := "E1", entityName := "N1", contractType := "T1",
    description := "D1", amount := 100, status := ContractStatus.Draft,
    createdBy := "u1", createdAt := 0, updatedAt := 0, currentStep := 0,
    validationSteps := [], auditTrail := [] }

/-- A fresh node state: genesis chain, empty registry. -/
def demoStart : Blockchain := NewBlockchain 1

/-- State after registering demoContract under id cid. -/
def demoAfterCreate : Blockchain :=
  (demoStart.AddContract demoContract "cid" 1 "a0").1

/-- The contract value AddContract registers for demoContract: id drawn,
timestamps stamped, workflow initialized. -/
def demoFreshContract : Contract :=
  InitializeContractWorkflow
    { demoContract with
        id := "cid", createdAt := 1, updatedAt := 1,
        status := ContractStatus.Draft } 1 "a0"

/-- State after the step-1 rejection of the fresh contract. -/
def rejectedState : Blockchain :=
  (demoAfterCreate.ValidateStep "cid" 1 "v" "vn" AdminRole.ProjectDeveloper
    false "bad" 1 "x1" "x2").1

/-- A further validation call against the rejected contract, submitted with
the step and role that match its (unchanged) current step. -/
def postRejectCall : Blockchain × Option String :=
  rejectedState.ValidateStep "cid" 1 "v2" "vn2" AdminRole.ProjectDeveloper
    true "again" 1 "y1" "y2"

/-- A block correctly extending the fresh genesis chain, as a peer sends it. -/
def incomingBlock : Block :=
  let b : Block :=
    { index := 1, timestamp := 2, data := [("k", Val.vstr "v")],
      previousHash := demoStart.getLatestBlock.hash, hash := "", nonce := 0,
      type := "T" }
  { b with hash := b.calculateHash }

/-- First delivery of incomingBlock. -/
def firstReceive : Blockchain × Option String :=
  demoStart.ReceiveBlock incomingBlock 3

/-- Second, duplicate delivery of the identical block. -/
def secondReceive : Blockchain × Option String :=
  firstReceive.1.ReceiveBlock incomingBlock 4

/-- Peer chain block with a fabricated (non-recomputing) hash. -/
def peerBlockA : Block :=
  { index := 0, timestamp := 1, data := [], previousHash := "", hash := "h0",
    nonce := 0, type := "" }

/-- Second fabricated peer block, linked to peerBlockA by stored hash. -/
def peerBlockB : Block :=
  { index := 1, timestamp := 1, data := [], previousHash := "h0", hash := "h1",
    nonce := 0, type := "" }

/-- Peer chain block of type CONTRACT_CREATION with a contract payload. -/
def ccPeerA : Block :=
  { index := 0, timestamp := 1, data := [("contract_id", Val.vstr "x1")],
    previousHash := "", hash := "p0", nonce := 0, type := "CONTRACT_CREATION" }

/-- Successor of ccPeerA, linked by stored hash. -/
def ccPeerB : Block :=
  { index := 1, timestamp := 1, data := [], previousHash := "p0", hash := "p1",
    nonce := 0, type := "" }

/-- The genesis block with its data mutated but its stored hash kept. -/
def tamperedGenesis : Block :=
  { demoStart.getLatestBlock with data := [("message", Val.vstr "TAMPERED")] }

/-- A correctly hashed successor of the tampered genesis. -/
def tamperedTail : Block :=
  let b : Block :=
    { index := 1, timestamp := 1, data := [], previousHash := tamperedGenesis.hash,
      hash := "", nonce := 0, type := "" }
  { b with hash := b.calculateHash }

/-- A local chain whose genesis was mutated in place. -/
def tamperedBC : Blockchain :=
  { chain := [tamperedGenesis, tamperedTail], contracts := [] }

/-- A fully authorized contract (all six steps approved). -/
def authContract : Contract :=
  { demoContract with
      id := "cid", currentStep := 6,
      status := ContractStatus.AuthorizedForPublication,
      validationSteps := freshValidationSteps.map
        (fun s => { s with status := ValidationStatus.Approved }),
      auditTrail := [] }

/-- A state holding the fully authorized contract. -/
def authBC : Blockchain :=
  { chain := (NewBlockchain 1).chain, contracts := [("cid", authContract)] }

/-- A contract awaiting only the final (sixth) approval. -/
def preFinalContract : Contract :=
  { demoContract with
      id := "cid", currentStep := 6, status := ContractStatus.BudgetReview,
      validationSteps := freshValidationSteps, auditTrail := [] }

/-- A state holding the contract awaiting its final approval. -/
def preFinalBC : Blockchain :=
  { chain := (NewBlockchain 1).chain, contracts := [("cid", preFinalContract)] }

/-! The six-approval run on a registered contract, with fixed validator
identities, used to settle the full-approval-path claim. -/

/-- Approval of step 1 by the project developer. -/
def c6run1 (bc : Blockchain) (cid : String) : Blockchain × Option String :=
  bc.ValidateStep cid 1 "v1" "n1" AdminRole.ProjectDeveloper true "c1" 1 "a1" "z1"

/-- Approval of step 2 by the technical commission. -/
def c6run2 (bc : Blockchain) (cid : String) : Blockchain × Option String :=
  (c6run1 bc cid).1.ValidateStep cid 2 "v2" "n2" AdminRole.TechnicalCommission true "c2" 1 "a2" "z2"

/-- Approval of step 3 by the legal commission. -/
def c6run3 (bc : Blockchain) (cid : String) : Blockchain × Option String :=
  (c6run2 bc cid).1.ValidateStep cid 3 "v3" "n3" AdminRole.LegalCommission true "c3" 1 "a3" "z3"

/-- Approval of step 4 by the contracts chief. -/
def c6run4 (bc : Blockchain) (cid : String) : Blockchain × Option String :=
  (c6run3 bc cid).1.ValidateStep cid 4 "v4" "n4" AdminRole.ContractsChief true "c4" 1 "a4" "z4"

/-- Approval of step 5 by the administrative chief. -/
def c6run5 (bc : Blockchain) (cid : String) : Blockchain × Option String :=
  (c6run4 bc cid).1.ValidateStep cid 5 "v5" "n5" AdminRole.AdminChief true "c5" 1 "a5" "z5"

/-- Approval of step 6 by the budget authority. -/
def c6run6 (bc : Blockchain) (cid : String) : Blockchain × Option String :=
  (c6run5 bc cid).1.ValidateStep cid 6 "v6" "n6" AdminRole.BudgetAuthority true "c6" 1 "a6" "z6"

/-- Contract state after approval 1 of the run. -/
def c6c1 (c : Contract) : Contract :=
  approvedMidContract c 1 "v1" "n1" AdminRole.ProjectDeveloper "c1" 1 "a1"

/-- Contract state after approval 2 of the run. -/
def c6c2 (c : Contract) : Contract :=
  approvedMidContract (c6c1 c) 2 "v2" "n2" AdminRole.TechnicalCommission "c2" 1 "a2"

/-- Contract state after approval 3 of the run. -/
def c6c3 (c : Contract) : Contract :=
  approvedMidContract (c6c2 c) 3 "v3" "n3" AdminRole.LegalCommission "c3" 1 "a3"

/-- Contract state after approval 4 of the run. -/
def c6c4 (c : Contract) : Contract :=
  approvedMidContract (c6c3 c) 4 "v4" "n4" AdminRole.ContractsChief "c4" 1 "a4"

/-- Contract state after approval 5 of the run. -/
def c6c5 (c : Contract) : Contract :=
  approvedMidContract (c6c4 c) 5 "v5" "n5" AdminRole.AdminChief "c5" 1 "a5"

/-- Contract state after the final approval of the run. -/
def c6c6 (c : Contract) : Contract :=
  approvedFinalContract (c6c5 c) 6 "v6" "n6" AdminRole.BudgetAuthority "c6" 1 "a6" "z6"

/-! Helper lemmas about the embedding. -/

theorem sha256hex_ne_empty (s : String) : sha256hex s ≠ "" := by
  intro h
  cases s with
  | mk l =>
    have := congrArg String.data h
    simp [sha256hex, String.data] at this

theorem sha256hex_beq_empty (s : String) : (sha256hex s == "") = false := by
  exact beq_eq_false_iff_ne.mpr (sha256hex_ne_empty s)

theorem mapGet_mapInsert_self (m : List (String × Contract)) (k : String) (v : Contract) :
    mapGet (mapInsert m k v) k = some v := by
  induction m with
  | nil => simp [mapInsert, mapGet]
  | cons kv rest ih =>
    by_cases h : kv.1 = k
    · simp [mapInsert, h, mapGet]
    · simp [mapInsert, h, mapGet, ih]

/-- AddBlock always succeeds in the model when the clock is not the zero
time: the built block carries a digest hash (never empty) and links to the
tail by construction. -/
theorem AddBlock_success (bc : Blockchain) (d : DataMap) (now : Int) (hnow : now ≠ 0) :
    bc.AddBlock d now =
      ({ bc with chain := bc.chain ++ [builtBlock bc d now] }, none) := by
  have hvalid : bc.IsValidBlock (builtBlock bc d now) = true := by
    cases hty : dataGetStr d "type" with
    | some t =>
      simp [Blockchain.IsValidBlock, builtBlock, NewBlock, hty, Block.calculateHash,
            sha256hex_beq_empty, hnow, bne_self_eq_false]
    | none =>
      simp [Blockchain.IsValidBlock, builtBlock, NewBlock, hty, Block.calculateHash,
            sha256hex_beq_empty, hnow, bne_self_eq_false]
  simp [Blockchain.AddBlock, hvalid]

/-- Equation for a successful approval of a non-final step. -/
theorem ValidateStep_approve_mid
    (bc : Blockchain) (cid : String) (c : Contract) (n : Int)
    (vid vname : String) (role : AdminRole) (cm : String) (now : Int) (a1 a2 : String)
    (hc : mapGet bc.contracts cid = some c)
    (hcur : c.currentStep = n)
    (hlt : n < (c.validationSteps.length : Int))
    (hrole : (c.validationSteps.getD (n - 1).toNat default).role = role)
    (hnow : now ≠ 0) :
    bc.ValidateStep cid n vid vname role true cm now a1 a2 =
      (let bc2 : Blockchain :=
        { bc with contracts :=
            mapInsert bc.contracts cid (approvedMidContract c n vid vname role cm now a1) }
       ({ bc2 with chain := bc2.chain ++
            [builtBlock bc2 (validationBlockData cid n vid role true cm now) now] }, none)) := by
  have hne : ¬ (n ≠ c.currentStep) := by simp [hcur]
  have hgt : ¬ (n > (c.validationSteps.length : Int)) := hlt.asymm
  have hrne : ¬ ((c.validationSteps.getD (n - 1).toNat default).role ≠ role) :=
    not_not_intro hrole
  simp only [Blockchain.ValidateStep, hc, if_neg hne, if_neg hgt, if_neg hrne,
             if_pos hlt, if_true]
  rw [AddBlock_success _ _ _ hnow]
  simp [approvedMidContract, approvedStamp, addAuditEntry]

/-- Equation for a successful approval of the final step. -/
theorem ValidateStep_approve_final
    (bc : Blockchain) (cid : String) (c : Contract) (n : Int)
    (vid vname : String) (role : AdminRole) (cm : String) (now : Int) (a1 a2 : String)
    (hc : mapGet bc.contracts cid = some c)
    (hcur : c.currentStep = n)
    (hnlt : ¬ n < (c.validationSteps.length : Int))
    (hngt : ¬ n > (c.validationSteps.length : Int))
    (hrole : (c.validationSteps.getD (n - 1).toNat default).role = role)
    (hnow : now ≠ 0) :
    bc.ValidateStep cid n vid vname role true cm now a1 a2 =
      (let bc2 : Blockchain :=
        { bc with contracts :=
            mapInsert bc.contracts cid (approvedFinalContract c n vid vname role cm now a1 a2) }
       ({ bc2 with chain := bc2.chain ++
            [builtBlock bc2 (validationBlockData cid n vid role true cm now) now] }, none)) := by
  have hne : ¬ (n ≠ c.currentStep) := by simp [hcur]
  have hrne : ¬ ((c.validationSteps.getD (n - 1).toNat default).role ≠ role) :=
    not_not_intro hrole
  simp only [Blockchain.ValidateStep, hc, if_neg hne, if_neg hngt, if_neg hrne,
             if_neg hnlt, if_true]
  rw [AddBlock_success _ _ _ hnow]
  simp [approvedFinalContract, approvedStamp, addAuditEntry]

/-- Equation for a rejection of the current step. -/
theorem ValidateStep_reject
    (bc : Blockchain) (cid : String) (c : Contract) (n : Int)
    (vid vname : String) (role : AdminRole) (cm : String) (now : Int) (a1 a2 : String)
    (hc : mapGet bc.contracts cid = some c)
    (hcur : c.currentStep = n)
    (hngt : ¬ n > (c.validationSteps.length : Int))
    (hrole : (c.validationSteps.getD (n - 1).toNat default).role = role)
    (hnow : now ≠ 0) :
    bc.ValidateStep cid n vid vname role false cm now a1 a2 =
      (let bc2 : Blockchain :=
        { bc with contracts :=
            mapInsert bc.contracts cid (rejectedContract c n vid vname role cm now a1) }
       ({ bc2 with chain := bc2.chain ++
            [builtBlock bc2 (validationBlockData cid n vid role false cm now) now] }, none)) := by
  have hne : ¬ (n ≠ c.currentStep) := by simp [hcur]
  have hrne : ¬ ((c.validationSteps.getD (n - 1).toNat default).role ≠ role) :=
    not_not_intro hrole
  simp only [Blockchain.ValidateStep, hc, if_neg hne, if_neg hngt, if_neg hrne, if_true]
  rw [AddBlock_success _ _ _ hnow]
  simp [rejectedContract, addAuditEntry]

theorem charListLeB_total (a b : List Char) :
    charListLeB a b = true ∨ charListLeB b a = true := by
  induction a generalizing b with
  | nil => left; simp [charListLeB]
  | cons x xs ih =>
    cases b with
    | nil => right; simp [charListLeB]
    | cons y ys =>
      by_cases h1 : x.toNat < y.toNat
      · left; simp [charListLeB, h1]
      · by_cases h2 : y.toNat < x.toNat
        · right; simp [charListLeB, h2]
        · rcases ih ys with h | h
          · left; simp [charListLeB, h1, h2, h]
          · right; simp [charListLeB, h1, h2, h]

theorem char_toNat_inj (a b : Char) (h : a.toNat = b.toNat) : a = b :=
  Char.eq_of_val_eq (UInt32.eq_of_toBitVec_eq (BitVec.eq_of_toNat_eq h))

theorem charListLeB_antisymm (a b : List Char)
    (h1 : charListLeB a b = true) (h2 : charListLeB b a = true) : a = b := by
  induction a generalizing b with
  | nil =>
    cases b with
    | nil => rfl
    | cons y ys => simp [charListLeB] at h2
  | cons x xs ih =>
    cases b with
    | nil => simp [charListLeB] at h1
    | cons y ys =>
      by_cases hlt : x.toNat < y.toNat
      · simp [charListLeB, hlt, Nat.lt_asymm hlt] at h2
      · by_cases hgt : y.toNat < x.toNat
        · simp [charListLeB, hlt, hgt] at h1
        · have hxy : x = y := char_toNat_inj x y (Nat.le_antisymm (Nat.le_of_not_lt hgt) (Nat.le_of_not_lt hlt))
          simp [charListLeB, hlt, hgt] at h1
          simp [charListLeB, hlt, hgt] at h2
          rw [hxy, ih ys h1 h2]

theorem charListLeB_trans (a b c : List Char)
    (h1 : charListLeB a b = true) (h2 : charListLeB b c = true) :
    charListLeB a c = true := by
  induction a generalizing b c with
  | nil => simp [charListLeB]
  | cons x xs ih =>
    cases b with
    | nil => simp [charListLeB] at h1
    | cons y ys =>
      cases c with
      | nil => simp [charListLeB] at h2
      | cons z zs =>
        by_cases hxy : x.toNat < y.toNat
        · by_cases hyz : y.toNat < z.toNat
          · simp [charListLeB, Nat.lt_trans hxy hyz]
          · by_cases hzy : z.toNat < y.toNat
            · simp [charListLeB, hyz, hzy] at h2
            · have : y.toNat = z.toNat := Nat.le_antisymm (Nat.le_of_not_lt hzy) (Nat.le_of_not_lt hyz)
              simp [charListLeB, this ▸ hxy]
        · by_cases hyx : y.toNat < x.toNat
          · simp [charListLeB, hxy, hyx] at h1
          · have hxy2 : x.toNat = y.toNat := Nat.le_antisymm (Nat.le_of_not_lt hyx) (Nat.le_of_not_lt hxy)
            simp [charListLeB, hxy, hyx] at h1
            by_cases hyz : y.toNat < z.toNat
            · simp [charListLeB, hxy2 ▸ hyz]
            · by_cases hzy : z.toNat < y.toNat
              · simp [charListLeB, hyz, hzy] at h2
              · simp [charListLeB, hyz, hzy] at h2
                have hxz : ¬ x.toNat < z.toNat := by omega
                have hzx : ¬ z.toNat < x.toNat := by omega
                simp [charListLeB, hxz, hzx, ih ys zs h1 h2]

theorem strLeB_total (a b : String) : strLeB a b = true ∨ strLeB b a = true :=
  charListLeB_total a.data b.data

theorem strLeB_antisymm (a b : String) (h1 : strLeB a b = true) (h2 : strLeB b a = true) :
    a = b := by
  cases a with
  | mk la =>
    cases b with
    | mk lb =>
      have := charListLeB_antisymm la lb h1 h2
      rw [this]

theorem strLeB_trans (a b c : String) (h1 : strLeB a b = true) (h2 : strLeB b c = true) :
    strLeB a c = true :=
  charListLeB_trans a.data b.data c.data h1 h2





theorem insertByKey_perm (kv : String × Val) (l : List (String × Val)) :
    (insertByKey kv l).Perm (kv :: l) := by
  induction l with
  | nil => simp [insertByKey]
  | cons x xs ih =>
    by_cases h : strLeB kv.1 x.1 = true
    · simp [insertByKey, h]
    · simp only [insertByKey, h, if_false, Bool.false_eq_true]
      exact (List.Perm.cons x ih).trans (List.Perm.swap kv x xs)

theorem sortByKey_perm (l : List (String × Val)) : (sortByKey l).Perm l := by
  induction l with
  | nil => simp [sortByKey]
  | cons kv rest ih =>
    exact (insertByKey_perm kv _).trans (List.Perm.cons kv ih)

theorem insertByKey_pairwise (kv : String × Val) (l : List (String × Val))
    (h : l.Pairwise keyR) : (insertByKey kv l).Pairwise keyR := by
  induction l with
  | nil => simp [insertByKey, List.Pairwise]
  | cons x xs ih =>
    rcases List.pairwise_cons.mp h with ⟨hx, hxs⟩
    by_cases hle : strLeB kv.1 x.1 = true
    · simp only [insertByKey, hle, if_true]
      refine List.pairwise_cons.mpr ⟨?_, h⟩
      intro y hy
      rcases List.mem_cons.mp hy with rfl | hy2
      · exact hle
      · exact strLeB_trans _ _ _ hle (hx y hy2)
    · simp only [insertByKey, hle, if_false, Bool.false_eq_true]
      refine List.pairwise_cons.mpr ⟨?_, ih hxs⟩
      intro y hy
      have hmem := (insertByKey_perm kv xs).mem_iff.mp hy
      rcases List.mem_cons.mp hmem with rfl | hmem2
      · rcases strLeB_total y.1 x.1 with h1 | h1
        · exact absurd h1 hle
        · exact h1
      · exact hx y hmem2

theorem sortByKey_pairwise (l : List (String × Val)) : (sortByKey l).Pairwise keyR := by
  induction l with
  | nil => simp [sortByKey]
  | cons kv rest ih => exact insertByKey_pairwise kv _ ih

theorem pairwise_perm_nodupkeys_eq (l₁ l₂ : List (String × Val))
    (hperm : l₁.Perm l₂) (h1 : l₁.Pairwise keyR) (h2 : l₂.Pairwise keyR)
    (hnd : (l₁.map Prod.fst).Nodup) : l₁ = l₂ := by
  induction l₁ generalizing l₂ with
  | nil => exact (List.Perm.eq_nil hperm.symm).symm
  | cons a t ih =>
    cases l₂ with
    | nil => exact absurd (List.Perm.eq_nil hperm) (by simp)
    | cons b u =>
      rcases List.pairwise_cons.mp h1 with ⟨ha, ht⟩
      rcases List.pairwise_cons.mp h2 with ⟨hb, hu⟩
      have hab : a = b := by
        have hbmem := List.mem_cons.mp (hperm.mem_iff.mpr (List.mem_cons_self b u))
        rcases hbmem with rfl | hbt
        · rfl
        · have hamem := List.mem_cons.mp (hperm.mem_iff.mp (List.mem_cons_self a t))
          rcases hamem with rfl | hau
          · rfl
          · have h1x : strLeB a.1 b.1 = true := ha b hbt
            have h2x : strLeB b.1 a.1 = true := hb a hau
            have hk : a.1 = b.1 := strLeB_antisymm _ _ h1x h2x
            have hmem2 : a.1 ∈ t.map Prod.fst :=
              List.mem_map.mpr ⟨b, hbt, hk.symm⟩
            rcases List.nodup_cons.mp hnd with ⟨hna, _⟩
            exact absurd hmem2 hna
      subst hab
      have htu : t.Perm u := hperm.cons_inv
      rw [ih u htu ht hu (List.nodup_cons.mp hnd).2]

theorem sortByKey_eq_of_perm (l₁ l₂ : List (String × Val))
    (hperm : l₁.Perm l₂) (hnd : (l₁.map Prod.fst).Nodup) :
    sortByKey l₁ = sortByKey l₂ := by
  apply pairwise_perm_nodupkeys_eq
  · exact ((sortByKey_perm l₁).trans hperm).trans (sortByKey_perm l₂).symm
  · exact sortByKey_pairwise l₁
  · exact sortByKey_pairwise l₂
  · refine (List.Perm.nodup_iff ?_).mp hnd
    exact ((sortByKey_perm l₁).map Prod.fst).symm

theorem encodeData_eq_of_perm (l₁ l₂ : DataMap)
    (hperm : l₁.Perm l₂) (hnd : (l₁.map Prod.fst).Nodup) :
    encodeData l₁ = encodeData l₂ := by
  unfold encodeData
  rw [sortByKey_eq_of_perm l₁ l₂ hperm hnd]







theorem validChainLoop_iff (rest : List Block) (prev : Block) :
    validChainLoop prev rest = true ↔
      ((∀ b ∈ rest, b.hash ≠ "") ∧
       List.Chain' (fun a b => b.previousHash = a.hash) (prev :: rest)) := by
  induction rest generalizing prev with
  | nil => simp [validChainLoop]
  | cons b bs ih =>
    simp only [validChainLoop, Bool.and_eq_true, bne_iff_ne, ne_eq, beq_iff_eq,
               List.chain'_cons, List.mem_cons, ih b]
    constructor
    · rintro ⟨⟨hne, hlink⟩, hrest, hchain⟩
      exact ⟨fun x hx => by rcases hx with rfl | hx; exact hne; exact hrest x hx,
             hlink, hchain⟩
    · rintro ⟨hall, hlink, hchain⟩
      exact ⟨⟨hall b (Or.inl rfl), hlink⟩, fun x hx => hall x (Or.inr hx), hchain⟩

theorem IsValidChain_iff (chain : List Block) :
    IsValidChain chain = true ↔ specChainAccept chain := by
  cases chain with
  | nil => simp [IsValidChain, specChainAccept]
  | cons b rest =>
    simp only [IsValidChain, Bool.and_eq_true, bne_iff_ne, ne_eq, validChainLoop_iff,
               specChainAccept, List.mem_cons]
    constructor
    · rintro ⟨hne, hall, hchain⟩
      exact ⟨by simp, fun x hx => by rcases hx with rfl | hx; exact hne; exact hall x hx,
             hchain⟩
    · rintro ⟨-, hall, hchain⟩
      exact ⟨hall b (Or.inl rfl), fun x hx => hall x (Or.inr hx), hchain⟩

theorem chainLoop_cons_iff (rest : List Block) (prev : Block) :
    chainLoop (prev :: rest) = true ↔
      List.Chain' (fun a b => b.IsValid = true ∧ b.previousHash = a.hash) (prev :: rest) := by
  induction rest generalizing prev with
  | nil => simp [chainLoop]
  | cons b bs ih =>
    simp only [chainLoop, Bool.and_eq_true, beq_iff_eq, List.chain'_cons, ih b]

theorem IsChainValid_iff (bc : Blockchain) :
    bc.IsChainValid = true ↔ specLocalValid bc.chain := by
  unfold Blockchain.IsChainValid specLocalValid
  cases h : bc.chain with
  | nil => simp [chainLoop]
  | cons b rest => exact chainLoop_cons_iff rest b

theorem map_head_append (x y : String) : (("map[" ++ x) ++ y).data.head? = some 'm' := by
  cases x with
  | mk lx => cases y with
    | mk ly => rfl

theorem goFmtData_head (d : DataMap) : (goFmtData d).data.head? = some 'm' := by
  unfold goFmtData
  exact map_head_append _ _

theorem jsonUnmarshal_goFmt (parse : String → Option Contract) (d : DataMap) :
    jsonUnmarshalContract parse (goFmtData d) = none := by
  unfold jsonUnmarshalContract
  rw [goFmtData_head]
  simp

theorem rebuild_contracts_empty (parse : String → Option Contract) (bc : Blockchain) :
    (rebuildContractsFromChain (jsonUnmarshalContract parse) bc).contracts = [] := by
  unfold rebuildContractsFromChain
  have hfold : ∀ (l : List Block) (acc : List (String × Contract)),
      (l.foldl (fun acc block =>
        if block.type == "CONTRACT_CREATION" then
          match jsonUnmarshalContract parse (goFmtData block.data) with
          | some c => mapInsert acc c.id c
          | none => acc
        else acc) acc) = acc := by
    intro l
    induction l with
    | nil => intro acc; rfl
    | cons b bs ih =>
      intro acc
      rw [List.foldl_cons]
      rw [show (if b.type == "CONTRACT_CREATION" then
          match jsonUnmarshalContract parse (goFmtData b.data) with
          | some c => mapInsert acc c.id c
          | none => acc
        else acc) = acc from by rw [jsonUnmarshal_goFmt]; split <;> rfl]
      exact ih acc
  exact hfold bc.chain []

theorem sixApprovals
    (bc : Blockchain) (cid : String) (c : Contract)
    (hc : mapGet bc.contracts cid = some c)
    (h1 : c.currentStep = 1)
    (h3 : c.validationSteps = freshValidationSteps) :
    ((c6run1 bc cid).2 = none
      ∧ statusOf (c6run1 bc cid).1 cid = some ContractStatus.TechnicalReview
      ∧ trailLenOf (c6run1 bc cid).1 cid = some (c.auditTrail.length + 1)
      ∧ (c6run1 bc cid).1.chain.length = bc.chain.length + 1)
    ∧ ((c6run2 bc cid).2 = none
      ∧ statusOf (c6run2 bc cid).1 cid = some ContractStatus.LegalReview
      ∧ trailLenOf (c6run2 bc cid).1 cid = some (c.auditTrail.length + 2)
      ∧ (c6run2 bc cid).1.chain.length = bc.chain.length + 2)
    ∧ ((c6run3 bc cid).2 = none
      ∧ statusOf (c6run3 bc cid).1 cid = some ContractStatus.ContractsReview
      ∧ trailLenOf (c6run3 bc cid).1 cid = some (c.auditTrail.length + 3)
      ∧ (c6run3 bc cid).1.chain.length = bc.chain.length + 3)
    ∧ ((c6run4 bc cid).2 = none
      ∧ statusOf (c6run4 bc cid).1 cid = some ContractStatus.AdminReview
      ∧ trailLenOf (c6run4 bc cid).1 cid = some (c.auditTrail.length + 4)
      ∧ (c6run4 bc cid).1.chain.length = bc.chain.length + 4)
    ∧ ((c6run5 bc cid).2 = none
      ∧ statusOf (c6run5 bc cid).1 cid = some ContractStatus.BudgetReview
      ∧ trailLenOf (c6run5 bc cid).1 cid = some (c.auditTrail.length + 5)
      ∧ (c6run5 bc cid).1.chain.length = bc.chain.length + 5)
    ∧ ((c6run6 bc cid).2 = none
      ∧ statusOf (c6run6 bc cid).1 cid = some ContractStatus.AuthorizedForPublication
      ∧ trailLenOf (c6run6 bc cid).1 cid = some (c.auditTrail.length + 7)
      ∧ (c6run6 bc cid).1.chain.length = bc.chain.length + 6)
    ∧ stepOf (c6run6 bc cid).1 cid = some 6
    ∧ ((c6run6 bc cid).1.GetContractWorkflowStatus cid).map (fun w => w.completedSteps) = some 6 := by
  have e1 := ValidateStep_approve_mid bc cid c 1 "v1" "n1" AdminRole.ProjectDeveloper "c1" 1 "a1" "z1"
    hc h1 (by rw [h3]; decide) (by rw [h3]; decide) (by decide)
  have hc2 : mapGet (c6run1 bc cid).1.contracts cid = some (c6c1 c) := by
    rw [c6run1, e1]
    simp [mapGet_mapInsert_self, c6c1]
  have hcur2 : (c6c1 c).currentStep = 2 := by
    simp [c6c1, approvedMidContract, h1]
  have hrole2 : ((c6c1 c).validationSteps.getD ((2 : Int) - 1).toNat default).role = AdminRole.TechnicalCommission := by
    simp [c6c1, c6c2, c6c3, c6c4, c6c5, approvedMidContract, approvedStamp, h3, freshValidationSteps, GetWorkflowSteps]
  have hlen2 : ((c6c1 c).validationSteps.length : Int) = 6 := by
    simp [c6c1, c6c2, c6c3, c6c4, c6c5, approvedMidContract, approvedStamp, h3, freshValidationSteps, GetWorkflowSteps]
  have e2 := ValidateStep_approve_mid (c6run1 bc cid).1 cid (c6c1 c) 2 "v2" "n2"
    AdminRole.TechnicalCommission "c2" 1 "a2" "z2" hc2 hcur2 (by rw [hlen2]; decide) hrole2 (by decide)
  have hc3 : mapGet (c6run2 bc cid).1.contracts cid = some (c6c2 c) := by
    rw [c6run2, e2]
    simp [mapGet_mapInsert_self, c6c1, c6c2]
  have hcur3 : (c6c2 c).currentStep = 3 := by
    simp [c6c1, c6c2, approvedMidContract, h1]
  have hrole3 : ((c6c2 c).validationSteps.getD ((3 : Int) - 1).toNat default).role = AdminRole.LegalCommission := by
    simp [c6c1, c6c2, c6c3, c6c4, c6c5, approvedMidContract, approvedStamp, h3, freshValidationSteps, GetWorkflowSteps]
  have hlen3 : ((c6c2 c).validationSteps.length : Int) = 6 := by
    simp [c6c1, c6c2, c6c3, c6c4, c6c5, approvedMidContract, approvedStamp, h3, freshValidationSteps, GetWorkflowSteps]
  have e3 := ValidateStep_approve_mid (c6run2 bc cid).1 cid (c6c2 c) 3 "v3" "n3"
    AdminRole.LegalCommission "c3" 1 "a3" "z3" hc3 hcur3 (by rw [hlen3]; decide) hrole3 (by decide)
  have hc4 : mapGet (c6run3 bc cid).1.contracts cid = some (c6c3 c) := by
    rw [c6run3, e3]
    simp [mapGet_mapInsert_self, c6c1, c6c2, c6c3]
  have hcur4 : (c6c3 c).currentStep = 4 := by
    simp [c6c1, c6c2, c6c3, approvedMidContract, h1]
  have hrole4 : ((c6c3 c).validationSteps.getD ((4 : Int) - 1).toNat default).role = AdminRole.ContractsChief := by
    simp [c6c1, c6c2, c6c3, c6c4, c6c5, approvedMidContract, approvedStamp, h3, freshValidationSteps, GetWorkflowSteps]
  have hlen4 : ((c6c3 c).validationSteps.length : Int) = 6 := by
    simp [c6c1, c6c2, c6c3, c6c4, c6c5, approvedMidContract, approvedStamp, h3, freshValidationSteps, GetWorkflowSteps]
  have e4 := ValidateStep_approve_mid (c6run3 bc cid).1 cid (c6c3 c) 4 "v4" "n4"
    AdminRole.ContractsChief "c4" 1 "a4" "z4" hc4 hcur4 (by rw [hlen4]; decide) hrole4 (by decide)
  have hc5 : mapGet (c6run4 bc cid).1.contracts cid = some (c6c4 c) := by
    rw [c6run4, e4]
    simp [mapGet_mapInsert_self, c6c1, c6c2, c6c3, c6c4]
  have hcur5 : (c6c4 c).currentStep = 5 := by
    simp [c6c1, c6c2, c6c3, c6c4, approvedMidContract, h1]
  have hrole5 : ((c6c4 c).validationSteps.getD ((5 : Int) - 1).toNat default).role = AdminRole.AdminChief := by
    simp [c6c1, c6c2, c6c3, c6c4, c6c5, approvedMidContract, approvedStamp, h3, freshValidationSteps, GetWorkflowSteps]
  have hlen5 : ((c6c4 c).validationSteps.length : Int) = 6 := by
    simp [c6c1, c6c2, c6c3, c6c4, c6c5, approvedMidContract, approvedStamp, h3, freshValidationSteps, GetWorkflowSteps]
  have e5 := ValidateStep_approve_mid (c6run4 bc cid).1 cid (c6c4 c) 5 "v5" "n5"
    AdminRole.AdminChief "c5" 1 "a5" "z5" hc5 hcur5 (by rw [hlen5]; decide) hrole5 (by decide)
  have hc6 : mapGet (c6run5 bc cid).1.contracts cid = some (c6c5 c) := by
    rw [c6run5, e5]
    simp [mapGet_mapInsert_self, c6c1, c6c2, c6c3, c6c4, c6c5]
  have hcur6 : (c6c5 c).currentStep = 6 := by
    simp [c6c1, c6c2, c6c3, c6c4, c6c5, approvedMidContract, h1]
  have hrole6 : ((c6c5 c).validationSteps.getD ((6 : Int) - 1).toNat default).role = AdminRole.BudgetAuthority := by
    simp [c6c1, c6c2, c6c3, c6c4, c6c5, approvedMidContract, approvedStamp, h3, freshValidationSteps, GetWorkflowSteps]
  have hlen6 : ((c6c5 c).validationSteps.length : Int) = 6 := by
    simp [c6c1, c6c2, c6c3, c6c4, c6c5, approvedMidContract, approvedStamp, h3, freshValidationSteps, GetWorkflowSteps]
  have e6 := ValidateStep_approve_final (c6run5 bc cid).1 cid (c6c5 c) 6 "v6" "n6"
    AdminRole.BudgetAuthority "c6" 1 "a6" "z6" hc6 hcur6 (by rw [hlen6]; decide) (by rw [hlen6]; decide) hrole6 (by decide)
  have L1 : (c6run1 bc cid).1.chain.length = bc.chain.length + 1 := by
    rw [c6run1, e1]; simp
  have L2 : (c6run2 bc cid).1.chain.length = bc.chain.length + 2 := by
    rw [c6run2, e2]; simp [L1]
  have L3 : (c6run3 bc cid).1.chain.length = bc.chain.length + 3 := by
    rw [c6run3, e3]; simp [L2]
  have L4 : (c6run4 bc cid).1.chain.length = bc.chain.length + 4 := by
    rw [c6run4, e4]; simp [L3]
  have L5 : (c6run5 bc cid).1.chain.length = bc.chain.length + 5 := by
    rw [c6run5, e5]; simp [L4]
  have L6 : (c6run6 bc cid).1.chain.length = bc.chain.length + 6 := by
    rw [c6run6, e6]; simp [L5]
  have A1 : (c6run1 bc cid).2 = none := by
    rw [c6run1, e1]
  have S1 : statusOf (c6run1 bc cid).1 cid = some ContractStatus.TechnicalReview := by
    rw [statusOf, c6run1, e1]
    simp [mapGet_mapInsert_self, approvedMidContract, h1]
    decide
  have T1 : trailLenOf (c6run1 bc cid).1 cid = some (c.auditTrail.length + 1) := by
    rw [trailLenOf, c6run1, e1]
    simp [mapGet_mapInsert_self, approvedMidContract]
  have A2 : (c6run2 bc cid).2 = none := by
    rw [c6run2, e2]
  have S2 : statusOf (c6run2 bc cid).1 cid = some ContractStatus.LegalReview := by
    rw [statusOf, c6run2, e2]
    simp [mapGet_mapInsert_self, approvedMidContract, hcur2]
    decide
  have T2 : trailLenOf (c6run2 bc cid).1 cid = some (c.auditTrail.length + 2) := by
    rw [trailLenOf, c6run2, e2]
    simp [mapGet_mapInsert_self, c6c1, approvedMidContract]
  have A3 : (c6run3 bc cid).2 = none := by
    rw [c6run3, e3]
  have S3 : statusOf (c6run3 bc cid).1 cid = some ContractStatus.ContractsReview := by
    rw [statusOf, c6run3, e3]
    simp [mapGet_mapInsert_self, approvedMidContract, hcur3]
    decide
  have T3 : trailLenOf (c6run3 bc cid).1 cid = some (c.auditTrail.length + 3) := by
    rw [trailLenOf, c6run3, e3]
    simp [mapGet_mapInsert_self, c6c1, c6c2, approvedMidContract]
  have A4 : (c6run4 bc cid).2 = none := by
    rw [c6run4, e4]
  have S4 : statusOf (c6run4 bc cid).1 cid = some ContractStatus.AdminReview := by
    rw [statusOf, c6run4, e4]
    simp [mapGet_mapInsert_self, approvedMidContract, hcur4]
    decide
  have T4 : trailLenOf (c6run4 bc cid).1 cid = some (c.auditTrail.length + 4) := by
    rw [trailLenOf, c6run4, e4]
    simp [mapGet_mapInsert_self, c6c1, c6c2, c6c3, approvedMidContract]
  have A5 : (c6run5 bc cid).2 = none := by
    rw [c6run5, e5]
  have S5 : statusOf (c6run5 bc cid).1 cid = some ContractStatus.BudgetReview := by
    rw [statusOf, c6run5, e5]
    simp [mapGet_mapInsert_self, approvedMidContract, hcur5]
    decide
  have T5 : trailLenOf (c6run5 bc cid).1 cid = some (c.auditTrail.length + 5) := by
    rw [trailLenOf, c6run5, e5]
    simp [mapGet_mapInsert_self, c6c1, c6c2, c6c3, c6c4, approvedMidContract]
  have A6 : (c6run6 bc cid).2 = none := by
    rw [c6run6, e6]
  have S6 : statusOf (c6run6 bc cid).1 cid = some ContractStatus.AuthorizedForPublication := by
    rw [statusOf, c6run6, e6]
    simp [mapGet_mapInsert_self, approvedFinalContract, approvedMidContract, hcur6]
  have T6 : trailLenOf (c6run6 bc cid).1 cid = some (c.auditTrail.length + 7) := by
    rw [trailLenOf, c6run6, e6]
    simp [mapGet_mapInsert_self, c6c1, c6c2, c6c3, c6c4, c6c5, approvedFinalContract, approvedMidContract]
  have ST6 : stepOf (c6run6 bc cid).1 cid = some 6 := by
    rw [stepOf, c6run6, e6]
    simp [mapGet_mapInsert_self, approvedFinalContract, hcur6]
  have CS6 : ((c6run6 bc cid).1.GetContractWorkflowStatus cid).map (fun w => w.completedSteps) = some 6 := by
    rw [c6run6, e6]
    simp only [Blockchain.GetContractWorkflowStatus]
    rw [show mapGet (mapInsert (c6run5 bc cid).1.contracts cid
      (approvedFinalContract (c6c5 c) 6 "v6" "n6" AdminRole.BudgetAuthority "c6" 1 "a6" "z6")) cid
      = some (c6c6 c) from by simp [mapGet_mapInsert_self, c6c6]]
    simp [c6c6, c6c5, c6c4, c6c3, c6c2, c6c1, approvedFinalContract, approvedMidContract,
          approvedStamp, h3, freshValidationSteps, GetWorkflowSteps]
  exact ⟨⟨A1, S1, T1, L1⟩, ⟨A2, S2, T2, L2⟩, ⟨A3, S3, T3, L3⟩, ⟨A4, S4, T4, L4⟩, ⟨A5, S5, T5, L5⟩, ⟨A6, S6, T6, L6⟩, ST6, CS6⟩

/-- C6 (corrected): for every freshly created contract, approving steps 1
through 6 in order with the role fixed for each step drives the status
through Draft, TechnicalReview, LegalReview, ContractsReview, AdminReview,
BudgetReview, AuthorizedForPublication, brings completedSteps to 6, and
appends exactly one chain block per approval; each of the first five
approvals appends exactly one audit entry, while the sixth appends two
(STEP_APPROVED and WORKFLOW_COMPLETED). -/
theorem C6_full_approval_path
    (bc : Blockchain) (cid : String) (c : Contract)
    (hc : mapGet bc.contracts cid = some c)
    (h2 : c.status = ContractStatus.Draft)
    (h1 : c.currentStep = 1)
    (h3 : c.validationSteps = freshValidationSteps) :
    statusOf bc cid = some ContractStatus.Draft
    ∧ ((c6run1 bc cid).2 = none
      ∧ statusOf (c6run1 bc cid).1 cid = some ContractStatus.TechnicalReview
      ∧ trailLenOf (c6run1 bc cid).1 cid = some (c.auditTrail.length + 1)
      ∧ (c6run1 bc cid).1.chain.length = bc.chain.length + 1)
    ∧ ((c6run2 bc cid).2 = none
      ∧ statusOf (c6run2 bc cid).1 cid = some ContractStatus.LegalReview
      ∧ trailLenOf (c6run2 bc cid).1 cid = some (c.auditTrail.length + 2)
      ∧ (c6run2 bc cid).1.chain.length = bc.chain.length + 2)
    ∧ ((c6run3 bc cid).2 = none
      ∧ statusOf (c6run3 bc cid).1 cid = some ContractStatus.ContractsReview
      ∧ trailLenOf (c6run3 bc cid).1 cid = some (c.auditTrail.length + 3)
      ∧ (c6run3 bc cid).1.chain.length = bc.chain.length + 3)
    ∧ ((c6run4 bc cid).2 = none
      ∧ statusOf (c6run4 bc cid).1 cid = some ContractStatus.AdminReview
      ∧ trailLenOf (c6run4 bc cid).1 cid = some (c.auditTrail.length + 4)
      ∧ (c6run4 bc cid).1.chain.length = bc.chain.length + 4)
    ∧ ((c6run5 bc cid).2 = none
      ∧ statusOf (c6run5 bc cid).1 cid = some ContractStatus.BudgetReview
      ∧ trailLenOf (c6run5 bc cid).1 cid = some (c.auditTrail.length + 5)
      ∧ (c6run5 bc cid).1.chain.length = bc.chain.length + 5)
    ∧ ((c6run6 bc cid).2 = none
      ∧ statusOf (c6run6 bc cid).1 cid = some ContractStatus.AuthorizedForPublication
      ∧ trailLenOf (c6run6 bc cid).1 cid = some (c.auditTrail.length + 7)
      ∧ (c6run6 bc cid).1.chain.length = bc.chain.length + 6)
    ∧ stepOf (c6run6 bc cid).1 cid = some 6
    ∧ ((c6run6 bc cid).1.GetContractWorkflowStatus cid).map (fun w => w.completedSteps) = some 6 := by
  refine ⟨by simp [statusOf, hc, h2], ?_⟩
  exact sixApprovals bc cid c hc h1 h3

/-- C6 counterexample: on the concrete freshly created contract, the sixth
approval succeeds but appends two audit entries (trail length 6 after five
approvals, 8 after the sixth), refuting the claim that each of the six
approvals appends exactly one audit entry. -/
theorem C6_counterexample :
    (c6run6 demoAfterCreate "cid").2 = none
    ∧ trailLenOf (c6run5 demoAfterCreate "cid").1 "cid" = some 6
    ∧ trailLenOf (c6run6 demoAfterCreate "cid").1 "cid" = some 8 := by
  obtain ⟨g1, g2, g3, g4, g5, g6, hst, hcs⟩ :=
    sixApprovals demoAfterCreate "cid" demoFreshContract rfl rfl rfl
  refine ⟨g6.1, ?_, ?_⟩
  · have := g5.2.2.1
    simpa using this
  · have := g6.2.2.1
    simpa using this

/-- C6 witness: the amended claim instantiated on the concrete fresh
contract. -/
theorem C6_witness :
    (c6run6 demoAfterCreate "cid").2 = none
    ∧ statusOf (c6run6 demoAfterCreate "cid").1 "cid" = some ContractStatus.AuthorizedForPublication
    ∧ ((c6run6 demoAfterCreate "cid").1.GetContractWorkflowStatus "cid").map
        (fun w => w.completedSteps) = some 6 := by
  obtain ⟨hD, g1, g2, g3, g4, g5, g6, hst, hcs⟩ :=
    C6_full_approval_path demoAfterCreate "cid" demoFreshContract rfl rfl rfl rfl
  exact ⟨g6.1, g6.2.1, hcs⟩

/-- C1 (corrected): during one sync pull, the local chain is replaced by
the peer chain iff the peer chain is strictly longer and IsValidChain
accepts it, where acceptance only requires a nonempty chain, a nonempty
stored hash on every block, and every adjacent pair linked by stored hash —
no hash recomputation takes place; otherwise the state is unchanged. -/
theorem C1_adoption_rule (dec : String → Option Contract) (bc : Blockchain)
    (pc : List Block) :
    (pc.length > bc.chain.length ∧ specChainAccept pc →
      SyncStep dec bc pc = rebuildContractsFromChain dec { bc with chain := pc })
    ∧ (¬ (pc.length > bc.chain.length ∧ specChainAccept pc) →
      SyncStep dec bc pc = bc) := by
  constructor
  · rintro ⟨hlen, hacc⟩
    have h1 : ((bc.chain.length : Int) < (pc.length : Int)) := by exact_mod_cast hlen
    have h2 : IsValidChain pc = true := (IsValidChain_iff pc).mpr hacc
    simp [SyncStep, h1, h2]
  · intro hn
    by_cases hlen : pc.length > bc.chain.length
    · have hacc : ¬ specChainAccept pc := fun h => hn ⟨hlen, h⟩
      have h2 : IsValidChain pc = false := by
        cases hV : IsValidChain pc with
        | false => rfl
        | true => exact absurd ((IsValidChain_iff pc).mp hV) hacc
      simp [SyncStep, h2]
    · have h1 : ¬ ((bc.chain.length : Int) < (pc.length : Int)) := by
        exact_mod_cast hlen
      simp [SyncStep, h1]

/-- C1 counterexample: a longer peer chain whose blocks carry fabricated
hashes (so recomputation fails on every block) is nevertheless adopted,
refuting the claim that adoption requires every peer block to be valid
under the node's own hash recomputation. -/
theorem C1_counterexample :
    (SyncStep (jsonUnmarshalContract (fun _ => none)) demoStart
        [peerBlockA, peerBlockB]).chain = [peerBlockA, peerBlockB]
    ∧ peerBlockA.IsValid = false
    ∧ peerBlockB.IsValid = false := ⟨rfl, rfl, rfl⟩

/-- C1 witness: both branches of the adoption rule at concrete inputs. -/
theorem C1_witness :
    SyncStep (jsonUnmarshalContract (fun _ => none)) demoStart [ccPeerA, ccPeerB]
      = rebuildContractsFromChain (jsonUnmarshalContract (fun _ => none))
          { demoStart with chain := [ccPeerA, ccPeerB] }
    ∧ SyncStep (jsonUnmarshalContract (fun _ => none)) demoStart [ccPeerA] = demoStart := by
  constructor
  · apply (C1_adoption_rule _ demoStart [ccPeerA, ccPeerB]).1
    refine ⟨by decide, ?_, ?_, ?_⟩
    · simp
    · decide
    · simp [List.chain'_cons, List.chain'_singleton, ccPeerA, ccPeerB]
  · exact (C1_adoption_rule _ demoStart [ccPeerA]).2 (by intro h; exact absurd h.1 (by decide))



/-- C4 (corrected): IsChainValid accepts exactly the chains in which every
block after the first recomputes its stored hash and links to its
predecessor; the genesis block itself is never re-hashed, so mutating the
genesis in place (keeping its stored hash) does not flip the result. -/
theorem C4_local_chain_validity (bc : Blockchain) :
    bc.IsChainValid = true ↔ specLocalValid bc.chain :=
  IsChainValid_iff bc

/-- C4 counterexample: the chain whose genesis data was mutated in place
(stored hash kept) still passes IsChainValid although the genesis no longer
recomputes, refuting the claim that mutating the genesis flips the result
to false. -/
theorem C4_counterexample :
    tamperedBC.IsChainValid = true
    ∧ tamperedBC.chain.getD 0 default =
        { demoStart.getLatestBlock with data := [("message", Val.vstr "TAMPERED")] }
    ∧ (tamperedBC.chain.getD 0 default).IsValid = false := ⟨rfl, rfl, rfl⟩

/-- C2 (code bug): Rejected is not absorbing.  On the fresh contract whose
step 1 was rejected (status Rejected), a further ValidateStep with the
matching step and role succeeds, re-stamps the step and moves the status to
TechnicalReview, against the terminal-state guard the spec mandates. -/
theorem C2_rejected_not_absorbing :
    statusOf rejectedState "cid" = some ContractStatus.Rejected
    ∧ postRejectCall.2 = none
    ∧ statusOf postRejectCall.1 "cid" = some ContractStatus.TechnicalReview
    ∧ stepOf postRejectCall.1 "cid" = some 2 := ⟨rfl, rfl, rfl, rfl⟩

/-- C3 (code bug): duplicate receipt of the identical block is not a no-op
success.  The first delivery succeeds but appends a re-wrapped block whose
hash differs from the received one (HasBlock stays false), so the second
identical delivery fails the previous-hash check and returns the
InvalidBlock error instead of succeeding as a no-op. -/
theorem C3_duplicate_receive_errors :
    firstReceive.2 = none
    ∧ firstReceive.1.HasBlock incomingBlock.hash = false
    ∧ secondReceive.2 = some "bloque inválido recibido"
    ∧ secondReceive.1 = firstReceive.1 := ⟨rfl, rfl, rfl, rfl⟩

/-- C5 (code bug): rebuilding the contract registry always produces an
empty registry, because the data mapping is rendered with the Go fmt
default verb (output starting with the text map, never a JSON object) and
json.Unmarshal therefore fails on every block; in particular adopting the
longer peer chain holding a CONTRACT_CREATION block leaves the registry
empty instead of registering a contract per such block. -/
theorem C5_rebuild_always_empty (parse : String → Option Contract) :
    (∀ bc : Blockchain,
      (rebuildContractsFromChain (jsonUnmarshalContract parse) bc).contracts = [])
    ∧ (SyncStep (jsonUnmarshalContract parse) demoStart [ccPeerA, ccPeerB]).chain
        = [ccPeerA, ccPeerB]
    ∧ (SyncStep (jsonUnmarshalContract parse) demoStart [ccPeerA, ccPeerB]).contracts = []
    ∧ ccPeerA.type = "CONTRACT_CREATION" := by
  refine ⟨rebuild_contracts_empty parse, ?_, ?_, rfl⟩
  · rfl
  · rfl

/-- C7 (confirmed): immediately after creation, a block's stored hash is
the digest of the canonical encoding of its index, Unix-seconds timestamp,
data, previous hash, nonce and type — for the genesis block and for every
appended block — and the canonical encoding of the data mapping does not
depend on the insertion order of its keys. -/
theorem C7_hash_after_creation :
    (∀ now : Int, ∀ b ∈ (NewBlockchain now).chain, b.hash = sha256hex (encodeRecord b))
    ∧ (∀ (bc : Blockchain) (d : DataMap) (now : Int) (bc2 : Blockchain),
        bc.AddBlock d now = (bc2, none) →
        ∃ b, bc2.chain = bc.chain ++ [b] ∧ b.hash = sha256hex (encodeRecord b))
    ∧ (∀ d1 d2 : DataMap, d1.Perm d2 → (d1.map Prod.fst).Nodup →
        encodeData d1 = encodeData d2) := by
  refine ⟨?_, ?_, ?_⟩
  · intro now b hb
    simp only [NewBlockchain, List.mem_singleton] at hb
    subst hb
    rfl
  · intro bc d now bc2 h
    simp only [Blockchain.AddBlock] at h
    split at h
    · injection h with h1 h2
      exact ⟨builtBlock bc d now, by rw [← h1], rfl⟩
    · injection h with h1 h2
      cases h2
  · exact encodeData_eq_of_perm

/-- C7 witness: hash invariant on the concrete genesis and a concrete
append, and key-order independence on a concrete two-key mapping. -/
theorem C7_witness :
    (NewBlockchain 5).getLatestBlock.hash
      = sha256hex (encodeRecord ((NewBlockchain 5).getLatestBlock))
    ∧ (∃ b, (demoStart.AddBlock [("type", Val.vstr "T")] 2).1.chain
          = demoStart.chain ++ [b] ∧ b.hash = sha256hex (encodeRecord b))
    ∧ encodeData [("b", Val.vint 1), ("a", Val.vstr "x")]
        = encodeData [("a", Val.vstr "x"), ("b", Val.vint 1)] := by
  obtain ⟨hgen, hadd, hperm⟩ := C7_hash_after_creation
  refine ⟨?_, ?_, ?_⟩
  · exact hgen 5 _ (by simp [NewBlockchain, Blockchain.getLatestBlock])
  · exact hadd demoStart [("type", Val.vstr "T")] 2
      (demoStart.AddBlock [("type", Val.vstr "T")] 2).1 rfl
  · exact hperm _ _ (List.Perm.swap ("a", Val.vstr "x") ("b", Val.vint 1) []) (by decide)



/-- C8 (confirmed): a ValidateStep call that fails with a workflow
sequencing error — requested step different from the current step, or
submitted role different from the role fixed for that step — reports the
error and leaves the whole state (contract registry and chain) unchanged. -/
theorem C8_sequencing_error_frame
    (bc : Blockchain) (cid : String) (c : Contract) (n : Int)
    (vid vname : String) (role : AdminRole) (approved : Bool) (cm : String)
    (now : Int) (a1 a2 : String)
    (hc : mapGet bc.contracts cid = some c)
    (hmis : n ≠ c.currentStep ∨
      (n = c.currentStep ∧ ¬ n > (c.validationSteps.length : Int) ∧
       (c.validationSteps.getD (n - 1).toNat default).role ≠ role)) :
    (bc.ValidateStep cid n vid vname role approved cm now a1 a2).1 = bc
    ∧ (bc.ValidateStep cid n vid vname role approved cm now a1 a2).2 ≠ none := by
  rcases hmis with hne | ⟨heq, hle, hrne⟩
  · rw [show bc.ValidateStep cid n vid vname role approved cm now a1 a2
        = (bc, some ("paso inválido. Paso actual: " ++ toString c.currentStep
            ++ ", paso solicitado: " ++ toString n)) from by
      simp only [Blockchain.ValidateStep, hc, if_pos hne]]
    exact ⟨rfl, by simp⟩
  · have hne2 : ¬ (n ≠ c.currentStep) := not_not_intro heq
    rw [show bc.ValidateStep cid n vid vname role approved cm now a1 a2
        = (bc, some ("rol incorrecto para este paso. Esperado: "
            ++ roleString (c.validationSteps.getD (n - 1).toNat default).role
            ++ ", recibido: " ++ roleString role)) from by
      simp only [Blockchain.ValidateStep, hc, if_neg hne2, if_neg hle, if_pos hrne]]
    exact ⟨rfl, by simp⟩

/-- C8 witness: on the freshly created contract, submitting step 3 first
(step mismatch) and submitting step 1 with the wrong role both fail and
leave the state unchanged. -/
theorem C8_witness :
    ((demoAfterCreate.ValidateStep "cid" 3 "v" "n" AdminRole.LegalCommission
        true "" 1 "q1" "q2").1 = demoAfterCreate
      ∧ (demoAfterCreate.ValidateStep "cid" 3 "v" "n" AdminRole.LegalCommission
        true "" 1 "q1" "q2").2 ≠ none)
    ∧ ((demoAfterCreate.ValidateStep "cid" 1 "v" "n" AdminRole.TechnicalCommission
        true "" 1 "q3" "q4").1 = demoAfterCreate
      ∧ (demoAfterCreate.ValidateStep "cid" 1 "v" "n" AdminRole.TechnicalCommission
        true "" 1 "q3" "q4").2 ≠ none) := by
  constructor
  · exact C8_sequencing_error_frame demoAfterCreate "cid" demoFreshContract 3
      "v" "n" AdminRole.LegalCommission true "" 1 "q1" "q2" rfl (Or.inl (by decide))
  · exact C8_sequencing_error_frame demoAfterCreate "cid" demoFreshContract 1
      "v" "n" AdminRole.TechnicalCommission true "" 1 "q3" "q4" rfl
      (Or.inr ⟨by decide, by decide, by decide⟩)

/-- C9 (confirmed): an audit observation is accepted only from the three
external audit roles, failing with the unauthorized-role error otherwise;
on success it appends exactly one AUDIT_OBSERVATION audit entry and one
AUDIT_OBSERVATION chain block and leaves the contract status, current step
and validation steps unchanged. -/
theorem C9_audit_observation
    (bc : Blockchain) (cid : String) (c : Contract) (auditorID : String)
    (role : AdminRole) (obs : String) (now : Int) (entryID : String)
    (hc : mapGet bc.contracts cid = some c)
    (hnow : now ≠ 0) :
    (¬ (role = AdminRole.Comptroller ∨ role = AdminRole.Prosecutor ∨ role = AdminRole.Citizen) →
      bc.AddAuditObservation cid auditorID role obs now entryID
        = (bc, some "rol no autorizado para auditoría"))
    ∧ ((role = AdminRole.Comptroller ∨ role = AdminRole.Prosecutor ∨ role = AdminRole.Citizen) →
      ∃ bc2 c2,
        bc.AddAuditObservation cid auditorID role obs now entryID = (bc2, none)
        ∧ mapGet bc2.contracts cid = some c2
        ∧ c2.status = c.status
        ∧ c2.currentStep = c.currentStep
        ∧ c2.validationSteps = c.validationSteps
        ∧ c2.auditTrail = c.auditTrail ++
            [{ id := entryID, action := "AUDIT_OBSERVATION", userID := auditorID,
               userRole := role, timestamp := now, description := obs }]
        ∧ bc2.chain.length = bc.chain.length + 1
        ∧ (bc2.chain.getLastD default).type = "AUDIT_OBSERVATION") := by
  constructor
  · intro hbad
    have hguard : role ≠ AdminRole.Comptroller ∧ role ≠ AdminRole.Prosecutor
        ∧ role ≠ AdminRole.Citizen := by
      push_neg at hbad
      exact hbad
    simp only [Blockchain.AddAuditObservation, hc, if_pos hguard]
  · intro hgood
    have hguard : ¬ (role ≠ AdminRole.Comptroller ∧ role ≠ AdminRole.Prosecutor
        ∧ role ≠ AdminRole.Citizen) := by
      rcases hgood with h | h | h <;> simp [h]
    have heq : bc.AddAuditObservation cid auditorID role obs now entryID =
        (let bcIns : Blockchain :=
          { bc with contracts := mapInsert bc.contracts cid (addAuditEntry c entryID "AUDIT_OBSERVATION" auditorID role obs now) }
         ({ bcIns with chain := bcIns.chain ++ [builtBlock bcIns (auditObservationBlockData cid auditorID role obs now) now] },
          none)) := by
      simp only [Blockchain.AddAuditObservation, hc, if_neg hguard]
      rw [AddBlock_success _ _ _ hnow]
    refine ⟨_, addAuditEntry c entryID "AUDIT_OBSERVATION" auditorID role obs now,
      heq, ?_, ?_, ?_, ?_, ?_, ?_, ?_⟩
    · simp [mapGet_mapInsert_self]
    · simp [addAuditEntry]
    · simp [addAuditEntry]
    · simp [addAuditEntry]
    · simp [addAuditEntry]
    · simp
    · simp [builtBlock, auditObservationBlockData, dataGetStr, NewBlock]



/-- C9 witness: the unauthorized-role failure and the successful
observation on the concrete fresh contract. -/
theorem C9_witness :
    demoAfterCreate.AddAuditObservation "cid" "aud" AdminRole.AdminChief "obs" 1 "e1"
      = (demoAfterCreate, some "rol no autorizado para auditoría")
    ∧ (∃ bc2 c2,
        demoAfterCreate.AddAuditObservation "cid" "aud" AdminRole.Comptroller "obs" 1 "e2"
          = (bc2, none)
        ∧ mapGet bc2.contracts "cid" = some c2
        ∧ c2.status = demoFreshContract.status
        ∧ c2.currentStep = demoFreshContract.currentStep
        ∧ c2.validationSteps = demoFreshContract.validationSteps
        ∧ c2.auditTrail = demoFreshContract.auditTrail ++
            [{ id := "e2", action := "AUDIT_OBSERVATION", userID := "aud",
               userRole := AdminRole.Comptroller, timestamp := 1, description := "obs" }]
        ∧ bc2.chain.length = demoAfterCreate.chain.length + 1
        ∧ (bc2.chain.getLastD default).type = "AUDIT_OBSERVATION") := by
  constructor
  · exact (C9_audit_observation demoAfterCreate "cid" demoFreshContract "aud"
      AdminRole.AdminChief "obs" 1 "e1" rfl (by decide)).1 (by decide)
  · exact (C9_audit_observation demoAfterCreate "cid" demoFreshContract "aud"
      AdminRole.Comptroller "obs" 1 "e2" rfl (by decide)).2 (Or.inl rfl)

/-- C10 (confirmed): after the sixth approval the contract keeps
currentStep 6 (it never moves past the last step), and the workflow status
read on an authorized contract still reports canAdvance true and nextRole
BudgetAuthority (not empty), although the contract is terminal. -/
theorem C10_authorized_contract_reads :
    (∀ (bc : Blockchain) (cid : String) (c : Contract) (vid vname cm : String)
      (now : Int) (a1 a2 : String),
      mapGet bc.contracts cid = some c →
      c.currentStep = 6 →
      c.validationSteps.length = 6 →
      (c.validationSteps.getD 5 default).role = AdminRole.BudgetAuthority →
      now ≠ 0 →
      (bc.ValidateStep cid 6 vid vname AdminRole.BudgetAuthority true cm now a1 a2).2 = none
      ∧ stepOf (bc.ValidateStep cid 6 vid vname AdminRole.BudgetAuthority true cm now a1 a2).1 cid
          = some 6
      ∧ statusOf (bc.ValidateStep cid 6 vid vname AdminRole.BudgetAuthority true cm now a1 a2).1 cid
          = some ContractStatus.AuthorizedForPublication)
    ∧ (∀ (bc : Blockchain) (cid : String) (c : Contract),
      mapGet bc.contracts cid = some c →
      c.status = ContractStatus.AuthorizedForPublication →
      c.currentStep = 6 →
      c.validationSteps.length = 6 →
      (c.validationSteps.getD 5 default).role = AdminRole.BudgetAuthority →
      (bc.GetContractWorkflowStatus cid).map (fun w => w.canAdvance) = some true
      ∧ (bc.GetContractWorkflowStatus cid).map (fun w => w.nextRole)
          = some (some AdminRole.BudgetAuthority)
      ∧ (bc.GetContractWorkflowStatus cid).map (fun w => w.currentStep) = some 6) := by
  constructor
  · intro bc cid c vid vname cm now a1 a2 hc h6 hlen hrole hnow
    have hra : (c.validationSteps.getD ((6 : Int) - 1).toNat default).role
        = AdminRole.BudgetAuthority := by
      rw [show ((6 : Int) - 1).toNat = 5 from by decide]
      exact hrole
    have e := ValidateStep_approve_final bc cid c 6 vid vname AdminRole.BudgetAuthority
      cm now a1 a2 hc h6 (by rw [hlen]; decide) (by rw [hlen]; decide) hra hnow
    refine ⟨?_, ?_, ?_⟩
    · rw [e]
    · rw [stepOf, e]
      simp [mapGet_mapInsert_self, approvedFinalContract, h6]
    · rw [statusOf, e]
      simp [mapGet_mapInsert_self, approvedFinalContract]
  · intro bc cid c hc hst h6 hlen hrole
    refine ⟨?_, ?_, ?_⟩
    · simp only [Blockchain.GetContractWorkflowStatus, hc, Option.map_some]
      simp [hst]
    · simp only [Blockchain.GetContractWorkflowStatus, hc, Option.map_some]
      simp [getNextRole, h6, hlen]
      rw [← List.getD_eq_getElem c.validationSteps default (by omega)]
      exact hrole
    · simp only [Blockchain.GetContractWorkflowStatus, hc, Option.map_some]
      simp [h6]

/-- C10 witness: the final approval on the concrete contract awaiting step
6, and the workflow read on the concrete authorized contract. -/
theorem C10_witness :
    ((preFinalBC.ValidateStep "cid" 6 "v" "n" AdminRole.BudgetAuthority true "" 1 "w1" "w2").2
        = none
      ∧ stepOf (preFinalBC.ValidateStep "cid" 6 "v" "n" AdminRole.BudgetAuthority true "" 1 "w1" "w2").1 "cid"
        = some 6
      ∧ statusOf (preFinalBC.ValidateStep "cid" 6 "v" "n" AdminRole.BudgetAuthority true "" 1 "w1" "w2").1 "cid"
        = some ContractStatus.AuthorizedForPublication)
    ∧ ((authBC.GetContractWorkflowStatus "cid").map (fun w => w.canAdvance) = some true
      ∧ (authBC.GetContractWorkflowStatus "cid").map (fun w => w.nextRole)
          = some (some AdminRole.BudgetAuthority)
      ∧ (authBC.GetContractWorkflowStatus "cid").map (fun w => w.currentStep) = some 6) := by
  constructor
  · exact C10_authorized_contract_reads.1 preFinalBC "cid" preFinalContract "v" "n" "" 1 "w1" "w2"
      rfl rfl rfl (by decide) (by decide)
  · exact C10_authorized_contract_reads.2 authBC "cid" authContract rfl rfl rfl rfl (by decide)

end SECOP
